import Mathlib

/-
Formal model of the scanner-bot file-intake pipeline.

The Go program watches a directory, waits for files to stabilise, sends them
to an external vision model, parses the JSON reply into receipt records, and
commits each record to a category-organised destination tree before archiving
the original.  The definitions below are a shallow embedding of the functions
in the repository source (main.go of the primary variant): the filesystem is
an association list from paths to byte contents, clock time is discretised to
the 1-second polling grid, and fallible OS calls return `Except` values with
error injection parameters standing for the environment-chosen failures.
-/

set_option maxRecDepth 20000

/-- Byte contents of a file, modelled as a list of byte values. -/
abbrev FileBytes := List Nat

/-- A filesystem state: an association list from absolute paths to contents.
`lookup` returns the binding of the first matching path. -/
def FS : Type := List (String × FileBytes)

def FS.lookup (fs : FS) (p : String) : Option FileBytes :=
  match fs with
  | [] => none
  | (q, c) :: rest => if q = p then some c else FS.lookup rest p

def FS.erase (fs : FS) (p : String) : FS :=
  match fs with
  | [] => []
  | (q, c) :: rest => if q = p then FS.erase rest p else (q, c) :: FS.erase rest p

/-- Write (create or truncate-and-overwrite) the file at path `p`. -/
def FS.set (fs : FS) (p : String) (c : FileBytes) : FS :=
  (p, c) :: FS.erase fs p

theorem FS.lookup_erase_ne (fs : FS) {p q : String} (h : q ≠ p) :
    (FS.erase fs p).lookup q = fs.lookup q := by
  induction fs with
  | nil => rfl
  | cons hd tl ih =>
    obtain ⟨r, c⟩ := hd
    by_cases hr : r = p
    · simp only [FS.erase, if_pos hr, FS.lookup, ih]
      rw [if_neg]
      intro hq
      exact h (hq ▸ hr)
    · simp only [FS.erase, if_neg hr, FS.lookup, ih]

theorem FS.lookup_erase_self (fs : FS) (p : String) :
    (FS.erase fs p).lookup p = none := by
  induction fs with
  | nil => rfl
  | cons hd tl ih =>
    obtain ⟨r, c⟩ := hd
    by_cases hr : r = p
    · simpa [FS.erase, hr] using ih
    · simpa [FS.erase, FS.lookup, hr] using ih

theorem FS.lookup_set_self (fs : FS) (p : String) (c : FileBytes) :
    (FS.set fs p c).lookup p = some c := by
  simp [FS.set, FS.lookup]

theorem FS.lookup_set_ne (fs : FS) {p q : String} (c : FileBytes) (h : q ≠ p) :
    (FS.set fs p c).lookup q = fs.lookup q := by
  simp only [FS.set, FS.lookup]
  rw [if_neg, FS.lookup_erase_ne fs h]
  intro hq
  exact h hq.symm

/-- Errors surfaced by the modelled OS calls.  `crossDevice` stands for the
EXDEV failure of `os.Rename`, `otherErr` for any other injected failure. -/
inductive GoError
  | notExist
  | crossDevice
  | otherErr
deriving DecidableEq

/-- Rendering of each error as the message Go reports, so that the
`strings.Contains(err.Error(), "cross-device link")` test can be modelled
faithfully at the string level. -/
def GoError.message : GoError → String
  | .notExist => "no such file or directory"
  | .crossDevice => "invalid cross-device link"
  | .otherErr => "permission denied"

def startsWithList : List Char → List Char → Bool
  | _, [] => true
  | [], _ :: _ => false
  | c :: cs, d :: ds => c = d && startsWithList cs ds

def containsList : List Char → List Char → Bool
  | [], sub => startsWithList [] sub
  | c :: t, sub => startsWithList (c :: t) sub || containsList t sub

/-- Model of Go `strings.Contains`. -/
def goContains (s sub : String) : Bool := containsList s.data sub.data

/-- Environment-chosen outcome of an `os.Rename` call whose source exists:
success, an EXDEV cross-device failure, or some other failure. -/
inductive RenameOutcome
  | ok
  | xdev
  | other
deriving DecidableEq

/-- Model of `os.Rename`: fails with `notExist` when the source is absent,
otherwise behaves as the environment outcome dictates. -/
def osRename (fs : FS) (src dst : String) (out : RenameOutcome) : Except GoError FS :=
  match fs.lookup src with
  | none => .error .notExist
  | some c =>
    match out with
    | .ok => .ok ((fs.erase src).set dst c)
    | .xdev => .error .crossDevice
    | .other => .error .otherErr

/-- Model of `os.Remove`. -/
def osRemove (fs : FS) (p : String) : Except GoError FS :=
  match fs.lookup p with
  | none => .error .notExist
  | some _ => .ok (fs.erase p)

/-- Model of `robustCopy` from the source: open the source (fails when
absent), create the destination and copy the bytes.  `inj = true` injects a
create/copy failure from the environment. -/
def robustCopy (fs : FS) (src dst : String) (inj : Bool) : Except GoError FS :=
  match fs.lookup src with
  | none => .error .notExist
  | some c => if inj then .error .otherErr else .ok (fs.set dst c)

/-- Model of `robustMove` from the source: try `os.Rename`; when the error
message does not contain "cross-device link" surface it as-is; otherwise fall
back to `robustCopy` followed by `os.Remove` of the source. -/
def robustMove (fs : FS) (src dst : String) (out : RenameOutcome) (inj : Bool) :
    Except GoError FS :=
  match osRename fs src dst out with
  | .ok fs' => .ok fs'
  | .error e =>
    if goContains e.message "cross-device link" = false then .error e
    else
      match robustCopy fs src dst inj with
      | .error e2 => .error e2
      | .ok fs' => osRemove fs' src

/-- Go: the `ReceiptData` struct mapping the JSON response from Gemini. -/
structure ReceiptData where
  Date : String
  Vendor : String
  Category : String
  Amount : Int
deriving DecidableEq

/-- The zero value of `ReceiptData`, as produced by `var single ReceiptData`. -/
def zeroReceipt : ReceiptData := ⟨"", "", "", 0⟩

/-- Replace every occurrence of the character `c` in `l` by the text `r`;
single-character-pattern case of Go `strings.ReplaceAll`. -/
def replChar (c : Char) (r : List Char) : List Char → List Char
  | [] => []
  | x :: xs => if x = c then r ++ replChar c r xs else x :: replChar c r xs

def goReplaceAllChar (s : String) (c : Char) (r : String) : String :=
  ⟨replChar c r.data s.data⟩

/-- Vendor normalisation performed by `saveProcessedFile`:
`strings.ReplaceAll(v, " ", "")` then `strings.ReplaceAll(v, "/", "-")`. -/
def normalizeVendor (v : String) : String :=
  goReplaceAllChar (goReplaceAllChar v ' ' "") '/' "-"

def goExtAux : List Char → List Char → Option String
  | [], _ => none
  | c :: rest, acc =>
    if c = '.' then some ⟨'.' :: acc⟩
    else if c = '/' then none
    else goExtAux rest (c :: acc)

/-- Model of Go `filepath.Ext`: the suffix starting at the final dot in the
final slash-separated element, or empty when there is none. -/
def goExt (p : String) : String := (goExtAux p.data.reverse []).getD ""

def goBaseAux : List Char → List Char → List Char
  | [], acc => acc
  | c :: rest, acc => if c = '/' then acc else goBaseAux rest (c :: acc)

/-- Model of Go `filepath.Base` on ordinary file paths: the element after the
last slash. -/
def goBase (p : String) : String := ⟨goBaseAux p.data.reverse []⟩

/-- Model of Go `filepath.Join` on two already-clean components. -/
def goJoin (a b : String) : String := a ++ "/" ++ b

/-- Date actually embedded in the destination filename: an empty date field
defaults to the current local calendar date (`today`). -/
def effectiveDate (data : ReceiptData) (today : String) : String :=
  if data.Date = "" then today else data.Date

/-- Category subdirectory actually used: only an empty category field
defaults to "Unsorted". -/
def effectiveCategory (data : ReceiptData) : String :=
  if data.Category = "" then "Unsorted" else data.Category

/-- The destination filename built by `saveProcessedFile`:
`fmt.Sprintf("%s_%s_%d円%s", date, vendor, amount, ext)`. -/
def processedFileName (data : ReceiptData) (today srcPath : String) : String :=
  effectiveDate data today ++ "_" ++ normalizeVendor data.Vendor ++ "_" ++
    toString data.Amount ++ "円" ++ goExt srcPath

/-- The full destination path of one committed record. -/
def processedPath (destDir : String) (data : ReceiptData) (today srcPath : String) : String :=
  goJoin (goJoin destDir (effectiveCategory data)) (processedFileName data today srcPath)

/-- Model of `saveProcessedFile`: normalise the record, build the destination
path under the category subdirectory (`os.MkdirAll` is modelled as always
succeeding) and copy the source bytes there. -/
def saveProcessedFile (destDir : String) (fs : FS) (srcPath : String) (data : ReceiptData)
    (today : String) (inj : Bool) : Except GoError FS :=
  robustCopy fs srcPath (processedPath destDir data today srcPath) inj

/-- The archive path of a source file: `dest/originals/<basename>`. -/
def originalsPath (destDir srcPath : String) : String :=
  goJoin (goJoin destDir "originals") (goBase srcPath)

/-- Model of `archiveOriginalFile`: ensure `dest/originals` exists and move
the source there with `robustMove`; a move failure is logged only, leaving
the filesystem unchanged. -/
def archiveOriginalFile (destDir : String) (fs : FS) (srcPath : String)
    (out : RenameOutcome) (inj : Bool) : FS :=
  match robustMove fs srcPath (originalsPath destDir srcPath) out inj with
  | .ok fs' => fs'
  | .error _ => fs

/-- The per-record loop of `saveAndArchive`: attempt every record's
`saveProcessedFile` independently, counting successes; per-record injected
failures come from the list `injs` (default `false` when exhausted). -/
def commitAll (destDir : String) (fs : FS) (srcPath : String) (l : List ReceiptData)
    (today : String) (injs : List Bool) : FS × Nat :=
  match l with
  | [] => (fs, 0)
  | d :: rest =>
    match saveProcessedFile destDir fs srcPath d today (injs.headD false) with
    | .ok fs' =>
      let r := commitAll destDir fs' srcPath rest today injs.tail
      (r.1, r.2 + 1)
    | .error _ => commitAll destDir fs srcPath rest today injs.tail

/-- Model of `saveAndArchive`: commit every record, then archive the original
only when at least one record was saved successfully. -/
def saveAndArchive (destDir : String) (fs : FS) (srcPath : String) (l : List ReceiptData)
    (today : String) (injs : List Bool) (out : RenameOutcome) (minj : Bool) : FS :=
  let r := commitAll destDir fs srcPath l today injs
  if 0 < r.2 then archiveOriginalFile destDir r.1 srcPath out minj else r.1

/-- JSON value tree.  Numbers record their integer value together with a flag
telling whether the literal was an integer literal (no fraction or exponent),
which is what `encoding/json` needs to decode into a Go `int` field. -/
inductive Json
  | null
  | bool (b : Bool)
  | num (v : Int) (isInt : Bool)
  | str (s : String)
  | arr (elems : List Json)
  | obj (fields : List (String × Json))

def quoteChar : Char := Char.ofNat 34

def backslashChar : Char := Char.ofNat 92

def lbraceChar : Char := Char.ofNat 123

def rbraceChar : Char := Char.ofNat 125

def isJsonWs (c : Char) : Bool :=
  c = ' ' || c = '\t' || c = '\n' || c = '\r'

def skipWs : List Char → List Char
  | [] => []
  | c :: rest => if isJsonWs c then skipWs rest else c :: rest

def hexDigitVal (c : Char) : Option Nat :=
  if '0' ≤ c ∧ c ≤ '9' then some (c.toNat - 48)
  else if 'a' ≤ c ∧ c ≤ 'f' then some (c.toNat - 87)
  else if 'A' ≤ c ∧ c ≤ 'F' then some (c.toNat - 70)
  else none

/-- Body of a JSON string literal after the opening quote: scan to the
closing quote decoding the standard escapes.  Fuel-driven so that the
definition is structurally recursive. -/
def parseStringBody : Nat → List Char → List Char → Option (List Char × List Char)
  | 0, _, _ => none
  | fuel + 1, l, acc =>
    match l with
    | [] => none
    | c :: rest =>
      if c = quoteChar then some (acc.reverse, rest)
      else if c = backslashChar then
        match rest with
        | [] => none
        | e :: rest2 =>
          if e = quoteChar then parseStringBody fuel rest2 (quoteChar :: acc)
          else if e = backslashChar then parseStringBody fuel rest2 (backslashChar :: acc)
          else if e = '/' then parseStringBody fuel rest2 ('/' :: acc)
          else if e = 'b' then parseStringBody fuel rest2 (Char.ofNat 8 :: acc)
          else if e = 'f' then parseStringBody fuel rest2 (Char.ofNat 12 :: acc)
          else if e = 'n' then parseStringBody fuel rest2 ('\n' :: acc)
          else if e = 'r' then parseStringBody fuel rest2 ('\r' :: acc)
          else if e = 't' then parseStringBody fuel rest2 ('\t' :: acc)
          else if e = 'u' then
            match rest2 with
            | h1 :: h2 :: h3 :: h4 :: rest3 =>
              match hexDigitVal h1, hexDigitVal h2, hexDigitVal h3, hexDigitVal h4 with
              | some a, some b, some c2, some d =>
                parseStringBody fuel rest3
                  (Char.ofNat (((a * 16 + b) * 16 + c2) * 16 + d) :: acc)
              | _, _, _, _ => none
            | _ => none
          else none
      else if c.toNat < 32 then none
      else parseStringBody fuel rest (c :: acc)

def isDigitChar (c : Char) : Bool := '0' ≤ c && c ≤ '9'

def digitsVal : List Char → Nat → Nat
  | [], acc => acc
  | c :: r, acc => digitsVal r (acc * 10 + (c.toNat - 48))

def takeDigits : List Char → List Char × List Char
  | [] => ([], [])
  | c :: r =>
    if isDigitChar c then
      let p := takeDigits r
      (c :: p.1, p.2)
    else ([], c :: r)

/-- Optional exponent part of a JSON number; returns whether an exponent was
present together with the remaining input. -/
def parseExpPart (l : List Char) : Option (Bool × List Char) :=
  match l with
  | c :: r =>
    if c = 'e' ∨ c = 'E' then
      let r1 := match r with
        | s :: r2 => if s = '+' ∨ s = '-' then r2 else s :: r2
        | [] => []
      match takeDigits r1 with
      | ([], _) => none
      | (_ :: _, r2) => some (true, r2)
    else some (false, l)
  | [] => some (false, [])

/-- Optional fraction-then-exponent part of a JSON number. -/
def parseFracExp (l : List Char) : Option (Bool × List Char) :=
  match l with
  | c :: r =>
    if c = '.' then
      match takeDigits r with
      | ([], _) => none
      | (_ :: _, r2) =>
        match parseExpPart r2 with
        | some (_, r3) => some (true, r3)
        | none => none
    else parseExpPart l
  | [] => some (false, [])

/-- A JSON number literal: optional minus, integer digits (no leading zero),
optional fraction and exponent. -/
def parseNumber (l : List Char) : Option (Json × List Char) :=
  let p := match l with
    | c :: r => if c = '-' then (true, r) else (false, l)
    | [] => (false, l)
  match takeDigits p.2 with
  | ([], _) => none
  | (d :: ds, r) =>
    if d = '0' ∧ ds ≠ [] then none
    else
      match parseFracExp r with
      | none => none
      | some (hasFrac, r2) =>
        let n : Int := Int.ofNat (digitsVal (d :: ds) 0)
        let v : Int := if p.1 then -n else n
        some (.num (if hasFrac then 0 else v) (!hasFrac), r2)

mutual

/-- Parse one JSON value from the input (leading whitespace already
skipped). -/
def parseValue : Nat → List Char → Option (Json × List Char)
  | 0, _ => none
  | fuel + 1, l =>
    match l with
    | [] => none
    | c :: rest =>
      if c = 'n' then
        match rest with
        | 'u' :: 'l' :: 'l' :: r => some (.null, r)
        | _ => none
      else if c = 't' then
        match rest with
        | 'r' :: 'u' :: 'e' :: r => some (.bool true, r)
        | _ => none
      else if c = 'f' then
        match rest with
        | 'a' :: 'l' :: 's' :: 'e' :: r => some (.bool false, r)
        | _ => none
      else if c = quoteChar then
        match parseStringBody (rest.length + 1) rest [] with
        | some (cs, r) => some (.str ⟨cs⟩, r)
        | none => none
      else if c = '[' then
        match skipWs rest with
        | ']' :: r2 => some (.arr [], r2)
        | r1 => match parseElems fuel r1 [] with
          | some (es, r2) => some (.arr es, r2)
          | none => none
      else if c = lbraceChar then
        match skipWs rest with
        | d :: r2 =>
          if d = rbraceChar then some (.obj [], r2)
          else match parseMembers fuel (d :: r2) [] with
            | some (ms, r3) => some (.obj ms, r3)
            | none => none
        | [] => none
      else if c = '-' ∨ isDigitChar c then parseNumber (c :: rest)
      else none

/-- Parse the elements of a non-empty JSON array, accumulator-style. -/
def parseElems : Nat → List Char → List Json → Option (List Json × List Char)
  | 0, _, _ => none
  | fuel + 1, l, acc =>
    match parseValue fuel l with
    | none => none
    | some (j, r) =>
      match skipWs r with
      | ',' :: r2 => parseElems fuel (skipWs r2) (j :: acc)
      | ']' :: r2 => some ((j :: acc).reverse, r2)
      | _ => none

/-- Parse the members of a non-empty JSON object, accumulator-style. -/
def parseMembers : Nat → List Char → List (String × Json) →
    Option (List (String × Json) × List Char)
  | 0, _, _ => none
  | fuel + 1, l, acc =>
    match l with
    | c :: r =>
      if c = quoteChar then
        match parseStringBody (r.length + 1) r [] with
        | none => none
        | some (k, r1) =>
          match skipWs r1 with
          | ':' :: r2 =>
            match parseValue fuel (skipWs r2) with
            | none => none
            | some (v, r3) =>
              match skipWs r3 with
              | ',' :: r4 => parseMembers fuel (skipWs r4) ((⟨k⟩, v) :: acc)
              | d :: r4 =>
                if d = rbraceChar then some (((⟨k⟩, v) :: acc).reverse, r4)
                else none
              | [] => none
          | _ => none
      else none
    | [] => none

end

/-- Parse a whole JSON text: one value surrounded by optional whitespace,
exactly Go `json.Unmarshal`'s syntactic acceptance. -/
def parseJsonText (s : String) : Option Json :=
  match parseValue (s.data.length + 8) (skipWs s.data) with
  | some (j, rest) => if skipWs rest = [] then some j else none
  | none => none

def lowerAsciiChar (c : Char) : Char :=
  if 'A' ≤ c ∧ c ≤ 'Z' then Char.ofNat (c.toNat + 32) else c

/-- ASCII lowering of a key, modelling the case-insensitive field matching
of `encoding/json` for the all-ASCII field tags of `ReceiptData`. -/
def lowerAscii (s : String) : String := ⟨s.data.map lowerAsciiChar⟩

/-- Decode one JSON object member into the `ReceiptData` struct the way
`encoding/json` does: keys matched case-insensitively against the field
tags, `null` leaves the field unchanged, a wrong-typed value is an error,
and unknown keys are ignored. -/
def applyField (d : ReceiptData) (kv : String × Json) : Option ReceiptData :=
  let kl := lowerAscii kv.1
  if kl = "date" then
    match kv.2 with
    | .str s => some { d with Date := s }
    | .null => some d
    | _ => none
  else if kl = "vendor" then
    match kv.2 with
    | .str s => some { d with Vendor := s }
    | .null => some d
    | _ => none
  else if kl = "category" then
    match kv.2 with
    | .str s => some { d with Category := s }
    | .null => some d
    | _ => none
  else if kl = "total_amount" then
    match kv.2 with
    | .num n isInt => if isInt then some { d with Amount := n } else none
    | .null => some d
    | _ => none
  else some d

def applyFields : ReceiptData → List (String × Json) → Option ReceiptData
  | d, [] => some d
  | d, kv :: rest =>
    match applyField d kv with
    | some d' => applyFields d' rest
    | none => none

/-- Go `json.Unmarshal` of a JSON value into a zero `ReceiptData` struct:
`null` succeeds leaving the zero value, an object decodes field by field,
anything else is an error. -/
def unmarshalReceiptJson : Json → Option ReceiptData
  | .null => some zeroReceipt
  | .obj fields => applyFields zeroReceipt fields
  | _ => none

def elemsToReceipts : List Json → Option (List ReceiptData)
  | [] => some []
  | j :: rest =>
    match unmarshalReceiptJson j with
    | none => none
    | some d =>
      match elemsToReceipts rest with
      | none => none
      | some l => some (d :: l)

/-- Go `json.Unmarshal` of a JSON value into a `[]ReceiptData` slice:
`null` yields the nil slice, an array decodes every element into a fresh
zero struct, anything else is an error. -/
def unmarshalListJson : Json → Option (List ReceiptData)
  | .null => some []
  | .arr es => elemsToReceipts es
  | _ => none

/-- First `json.Unmarshal` attempt of `parseGeminiResponse`: the raw text as
a single record object. -/
def goUnmarshalObj (s : String) : Option ReceiptData :=
  match parseJsonText s with
  | some j => unmarshalReceiptJson j
  | none => none

/-- Second `json.Unmarshal` attempt of `parseGeminiResponse`: the raw text
as an array of records. -/
def goUnmarshalArr (s : String) : Option (List ReceiptData) :=
  match parseJsonText s with
  | some j => unmarshalListJson j
  | none => none

/-- Model of `parseGeminiResponse`: try the single-object decode, then the
array decode, and fail (returning `none` for the parse-error condition) only
when both fail. -/
def parseGeminiResponse (s : String) : Option (List ReceiptData) :=
  match goUnmarshalObj s with
  | some single => some [single]
  | none =>
    match goUnmarshalArr s with
    | some l => some l
    | none => none

/-- Result of `waitForStableFile`: success, the 5-minute timeout error, or
the file-disappeared error. -/
inductive StableResult
  | stable
  | timeout
  | notFound
deriving DecidableEq

/-- Polling loop of `waitForStableFile`, discretised to the 1-second polling
grid: `sizes t` is the observed size of the file at second `t` (`none` when
`os.Stat` reports that the file does not exist).  `lastSize` starts at `-1`
and `stableSince` at `0`; the loop times out once more than 300 seconds (5
minutes) have elapsed, declares stability only when the size has been
unchanged since `stableSince` for at least 10 seconds and is positive, and
otherwise sleeps one second.  The fuel argument only makes the recursion
structural; with the fuel used by `waitForStableFile` it never runs out
because the timeout fires first. -/
def waitGo (sizes : Nat → Option Int) : Nat → Int → Nat → Nat → StableResult
  | 0, _, _, _ => .timeout
  | fuel + 1, lastSize, stableSince, t =>
    if 300 < t then .timeout
    else
      match sizes t with
      | none => .notFound
      | some currentSize =>
        if currentSize ≠ lastSize then waitGo sizes fuel currentSize t (t + 1)
        else
          if 10 ≤ t - stableSince ∧ 0 < currentSize then .stable
          else waitGo sizes fuel lastSize stableSince (t + 1)

/-- Model of `waitForStableFile` over a size trace. -/
def waitForStableFile (sizes : Nat → Option Int) : StableResult :=
  waitGo sizes 302 (-1) 0 0

/-- The fsnotify operation bits, as in the fsnotify package. -/
def fsnotifyCreate : Nat := 1

def fsnotifyWrite : Nat := 2

def fsnotifyRemove : Nat := 4

def fsnotifyRename : Nat := 8

def fsnotifyChmod : Nat := 16

/-- A raw filesystem notification: a path and an operation bitmask. -/
structure FsEvent where
  name : String
  op : Nat

/-- Model of fsnotify `event.Has(flag)`. -/
def FsEvent.hasOp (e : FsEvent) (flag : Nat) : Bool := e.op &&& flag ≠ 0

/-- The content-relevance test of the event loop, in the order written in
the source: Write, Create, Rename or Chmod. -/
def relevantEvent (e : FsEvent) : Bool :=
  e.hasOp fsnotifyWrite || e.hasOp fsnotifyCreate ||
    e.hasOp fsnotifyRename || e.hasOp fsnotifyChmod

/-- One delivery of a watcher event to the event loop.  The state is the set
of in-flight paths (`activeFiles`, which also lists the running tasks, one
per registered path).  Returns the new state together with whether a new
processing task was spawned: a content-relevant event whose
`LoadOrStore` finds the path already present is ignored, a content-relevant
event for an absent path registers it and spawns a task, and any other event
only logs. -/
def handleEvent (s : List String) (e : FsEvent) : List String × Bool :=
  if relevantEvent e then
    if e.name ∈ s then (s, false)
    else (e.name :: s, true)
  else (s, false)

/-- Termination of the processing task for path `p`: the deferred
`activeFiles.Delete(path)` runs unconditionally, whether the task ended in
success, failure, or early filter rejection. -/
def taskExit (s : List String) (p : String) : List String := s.erase p

/-- Interleaving transitions of the event-loop/task system: either the loop
handles one event, or one running task (a path in the state) terminates. -/
inductive LoopStep : List String → List String → Prop
  | event (s : List String) (e : FsEvent) : LoopStep s (handleEvent s e).1
  | exit (s : List String) (p : String) (hp : p ∈ s) : LoopStep s (taskExit s p)

/-- States reachable from the initial empty in-flight set. -/
inductive LoopReachable : List String → Prop
  | init : LoopReachable []
  | step {s s' : List String} : LoopReachable s → LoopStep s s' → LoopReachable s'

/-- Remote-asset processing states of the genai file API. -/
inductive FileState
  | unspecified
  | processing
  | active
  | failed
deriving DecidableEq

/-- Result of the polling loop of `analyzeReceipt`: ran out of observations
while still processing (the Go loop would still be running), a `GetFile`
error, or the first observed non-processing state. -/
inductive PollResult
  | hung
  | getErr
  | done (st : FileState)
deriving DecidableEq

/-- The `for upFile.State == genai.FileStateProcessing` polling loop:
`getFile i` is the outcome of the i-th `client.GetFile` call (`none` for an
error). -/
def pollState : Nat → Nat → FileState → (Nat → Option FileState) → PollResult
  | 0, _, st, _ => if st = .processing then .hung else .done st
  | fuel + 1, i, st, getFile =>
    if st = .processing then
      match getFile i with
      | none => .getErr
      | some st' => pollState fuel (i + 1) st' getFile
    else .done st

/-- Environment of one `analyzeReceipt` run: outcomes of the external
calls.  `candidates` is the response shape, one entry per candidate, each a
list of parts where `some t` is a text part holding `t` and `none` a
non-text part. -/
structure GenEnv where
  openOk : Bool
  uploadOk : Bool
  initState : FileState
  getFile : Nat → Option FileState
  generateOk : Bool
  candidates : List (List (Option String))

/-- Failure conditions of `analyzeReceipt`, one per `return nil, err` site. -/
inductive AnalyzeErr
  | openErr
  | uploadErr
  | checkErr
  | stateErr (st : FileState)
  | genErr
  | emptyResp
  | parseErr
deriving DecidableEq

/-- Result of an `analyzeReceipt` run. -/
inductive AnalyzeResult
  | hung
  | err (e : AnalyzeErr)
  | ok (l : List ReceiptData)
deriving DecidableEq

/-- Model of `analyzeReceipt`: open and upload the file, poll the asset
state until it leaves `processing`, require `active`, generate content,
require a candidate with a part, take the first part's text (empty when the
part is not text) and run `parseGeminiResponse` on it.  Returns the result
together with whether the deferred `client.DeleteFile` ran; the defer is
installed right after a successful upload, so it runs on every exit path
from that point on, while a run still stuck in the polling loop (`hung`) has
not reached any exit path yet. -/
def analyzeReceipt (env : GenEnv) (fuel : Nat) : AnalyzeResult × Bool :=
  match env.openOk with
  | false => (.err .openErr, false)
  | true =>
    match env.uploadOk with
    | false => (.err .uploadErr, false)
    | true =>
      match pollState fuel 0 env.initState env.getFile with
      | .hung => (.hung, false)
      | .getErr => (.err .checkErr, true)
      | .done st =>
        match st with
        | .active =>
          match env.generateOk with
          | false => (.err .genErr, true)
          | true =>
            match env.candidates with
            | [] => (.err .emptyResp, true)
            | parts :: _ =>
              match parts with
              | [] => (.err .emptyResp, true)
              | p :: _ =>
                let jsonText := match p with
                  | some t => t
                  | none => ""
                match parseGeminiResponse jsonText with
                | some l => (.ok l, true)
                | none => (.err .parseErr, true)
        | other => (.err (.stateErr other), true)

theorem mem_replChar {a c : Char} {r l : List Char} (h : a ∈ replChar c r l) :
    a ∈ r ∨ (a ∈ l ∧ a ≠ c) := by
  induction l with
  | nil => simp [replChar] at h
  | cons x xs ih =>
    simp only [replChar] at h
    by_cases hx : x = c
    · rw [if_pos hx] at h
      rcases List.mem_append.mp h with hr | ht
      · exact Or.inl hr
      · rcases ih ht with hr | ⟨hl, hne⟩
        · exact Or.inl hr
        · exact Or.inr ⟨List.mem_cons_of_mem x hl, hne⟩
    · rw [if_neg hx] at h
      rcases List.mem_cons.mp h with rfl | ht
      · exact Or.inr ⟨List.mem_cons_self a xs, hx⟩
      · rcases ih ht with hr | ⟨hl, hne⟩
        · exact Or.inl hr
        · exact Or.inr ⟨List.mem_cons_of_mem x hl, hne⟩

theorem normalizeVendor_no_space_no_slash (v : String) :
    ' ' ∉ (normalizeVendor v).data ∧ '/' ∉ (normalizeVendor v).data := by
  constructor
  · intro h
    rcases mem_replChar h with hr | ⟨hl, _⟩
    · simp at hr
    · rcases mem_replChar hl with hr | ⟨_, hne⟩
      · simp at hr
      · exact hne rfl
  · intro h
    rcases mem_replChar h with hr | ⟨_, hne⟩
    · simp at hr
    · exact hne rfl

/-- Claim C4: `robustMove` first attempts an atomic rename; a rename failing
with the cross-device condition falls back to copy-then-delete, leaving the
source absent and the destination present with the source's byte content;
any other rename failure is returned as-is (leaving the filesystem, and with
it the source file, untouched). -/
theorem C4_robust_move (fs : FS) (src dst : String) (c : FileBytes)
    (hsrc : fs.lookup src = some c) (hne : src ≠ dst) :
    (robustMove fs src dst .ok false = .ok (FS.set (FS.erase fs src) dst c) ∧
      FS.lookup (FS.set (FS.erase fs src) dst c) src = none ∧
      FS.lookup (FS.set (FS.erase fs src) dst c) dst = some c) ∧
    (robustMove fs src dst .xdev false = .ok (FS.erase (FS.set fs dst c) src) ∧
      FS.lookup (FS.erase (FS.set fs dst c) src) src = none ∧
      FS.lookup (FS.erase (FS.set fs dst c) src) dst = some c) ∧
    (osRename fs src dst .other = .error .otherErr ∧
      robustMove fs src dst .other false = .error .otherErr) := by
  have hgc : goContains (GoError.message .crossDevice) "cross-device link" = true := by decide
  have hgo : goContains (GoError.message .otherErr) "cross-device link" = false := by decide
  refine ⟨⟨?_, ?_, ?_⟩, ⟨?_, ?_, ?_⟩, ?_, ?_⟩
  · simp [robustMove, osRename, hsrc]
  · rw [FS.lookup_set_ne _ c hne, FS.lookup_erase_self]
  · exact FS.lookup_set_self _ dst c
  · simp [robustMove, osRename, robustCopy, osRemove, hsrc, hgc,
      FS.lookup_set_ne _ c hne]
  · exact FS.lookup_erase_self _ src
  · rw [FS.lookup_erase_ne _ (fun h => hne h.symm), FS.lookup_set_self]
  · simp [osRename, hsrc]
  · simp [robustMove, osRename, hsrc, hgo]

/-- Witness for C4 at a concrete filesystem. -/
theorem C4_robust_move_witness :
    (robustMove [("/w/a.jpg", [1, 2])] "/w/a.jpg" "/d/a.jpg" .ok false =
        .ok (FS.set (FS.erase [("/w/a.jpg", [1, 2])] "/w/a.jpg") "/d/a.jpg" [1, 2]) ∧
      FS.lookup (FS.set (FS.erase [("/w/a.jpg", [1, 2])] "/w/a.jpg") "/d/a.jpg" [1, 2]) "/w/a.jpg" = none ∧
      FS.lookup (FS.set (FS.erase [("/w/a.jpg", [1, 2])] "/w/a.jpg") "/d/a.jpg" [1, 2]) "/d/a.jpg" = some [1, 2]) ∧
    (robustMove [("/w/a.jpg", [1, 2])] "/w/a.jpg" "/d/a.jpg" .xdev false =
        .ok (FS.erase (FS.set [("/w/a.jpg", [1, 2])] "/d/a.jpg" [1, 2]) "/w/a.jpg") ∧
      FS.lookup (FS.erase (FS.set [("/w/a.jpg", [1, 2])] "/d/a.jpg" [1, 2]) "/w/a.jpg") "/w/a.jpg" = none ∧
      FS.lookup (FS.erase (FS.set [("/w/a.jpg", [1, 2])] "/d/a.jpg" [1, 2]) "/w/a.jpg") "/d/a.jpg" = some [1, 2]) ∧
    (osRename [("/w/a.jpg", [1, 2])] "/w/a.jpg" "/d/a.jpg" .other = .error .otherErr ∧
      robustMove [("/w/a.jpg", [1, 2])] "/w/a.jpg" "/d/a.jpg" .other false = .error .otherErr) :=
  C4_robust_move [("/w/a.jpg", [1, 2])] "/w/a.jpg" "/d/a.jpg" [1, 2] (by decide) (by decide)

/-- Claim C6: the committed destination filename is
`<Date>_<Vendor>_<Amount><currency-marker><ext>` where the vendor text has
every space removed and every slash replaced by a hyphen, an empty date is
replaced by the current local calendar date, and the source file's extension
is preserved. -/
theorem C6_destination_filename (destDir : String) (fs : FS) (srcPath today : String)
    (data : ReceiptData) (c : FileBytes) (hsrc : fs.lookup srcPath = some c) :
    saveProcessedFile destDir fs srcPath data today false =
      .ok (FS.set fs (processedPath destDir data today srcPath) c) ∧
    processedPath destDir data today srcPath =
      goJoin (goJoin destDir (effectiveCategory data))
        (effectiveDate data today ++ "_" ++ normalizeVendor data.Vendor ++ "_" ++
          toString data.Amount ++ "円" ++ goExt srcPath) ∧
    (data.Date = "" → effectiveDate data today = today) ∧
    (data.Date ≠ "" → effectiveDate data today = data.Date) ∧
    (∀ v : String, ' ' ∉ (normalizeVendor v).data ∧ '/' ∉ (normalizeVendor v).data) ∧
    normalizeVendor "A B" = "AB" ∧
    normalizeVendor "A/B" = "A-B" := by
  refine ⟨?_, rfl, ?_, ?_, normalizeVendor_no_space_no_slash, by decide, by decide⟩
  · simp [saveProcessedFile, robustCopy, hsrc]
  · intro h; simp [effectiveDate, h]
  · intro h; simp [effectiveDate, h]

/-- Witness for C6 at a concrete record and filesystem. -/
theorem C6_destination_filename_witness :
    saveProcessedFile "d" [("/w/a.jpg", [7])] "/w/a.jpg" ⟨"", "A B", "Tax", 1200⟩ "2026-10-11" false =
      .ok (FS.set [("/w/a.jpg", [7])]
        (processedPath "d" ⟨"", "A B", "Tax", 1200⟩ "2026-10-11" "/w/a.jpg") [7]) ∧
    processedPath "d" ⟨"", "A B", "Tax", 1200⟩ "2026-10-11" "/w/a.jpg" =
      goJoin (goJoin "d" (effectiveCategory ⟨"", "A B", "Tax", 1200⟩))
        (effectiveDate ⟨"", "A B", "Tax", 1200⟩ "2026-10-11" ++ "_" ++
          normalizeVendor "A B" ++ "_" ++ toString (1200 : Int) ++ "円" ++ goExt "/w/a.jpg") ∧
    (("" : String) = "" → effectiveDate ⟨"", "A B", "Tax", 1200⟩ "2026-10-11" = "2026-10-11") ∧
    (("" : String) ≠ "" → effectiveDate ⟨"", "A B", "Tax", 1200⟩ "2026-10-11" = "") ∧
    (∀ v : String, ' ' ∉ (normalizeVendor v).data ∧ '/' ∉ (normalizeVendor v).data) ∧
    normalizeVendor "A B" = "AB" ∧
    normalizeVendor "A/B" = "A-B" :=
  C6_destination_filename "d" [("/w/a.jpg", [7])] "/w/a.jpg" "2026-10-11"
    ⟨"", "A B", "Tax", 1200⟩ [7] (by decide)

/-- Counterexample to claim C7: a record whose category is the non-empty
unrecognised string "Foo" is filed under the `Foo` subdirectory verbatim, not
under `Unsorted`. -/
theorem C7_counterexample :
    effectiveCategory ⟨"2024-01-05", "V", "Foo", 3⟩ = "Foo" ∧
    saveProcessedFile "d" [("/w/a.jpg", [7])] "/w/a.jpg" ⟨"2024-01-05", "V", "Foo", 3⟩
        "2026-10-11" false =
      .ok [("d/Foo/2024-01-05_V_3円.jpg", [7]), ("/w/a.jpg", [7])] ∧
    FS.lookup [("d/Foo/2024-01-05_V_3円.jpg", [7]), ("/w/a.jpg", [7])]
        "d/Unsorted/2024-01-05_V_3円.jpg" = none := by
  refine ⟨by decide, ?_, by decide⟩
  rfl

/-- Claim C7 as amended: only a record whose category field is the empty
string is defaulted to the "Unsorted" subdirectory; any non-empty category,
recognised or not, is used verbatim as the subdirectory name. -/
theorem C7_amended_category_default (destDir : String) (fs : FS) (srcPath today : String)
    (data : ReceiptData) (c : FileBytes) (hsrc : fs.lookup srcPath = some c) :
    effectiveCategory data = (if data.Category = "" then "Unsorted" else data.Category) ∧
    (data.Category = "" →
      saveProcessedFile destDir fs srcPath data today false =
        .ok (FS.set fs
          (goJoin (goJoin destDir "Unsorted") (processedFileName data today srcPath)) c)) ∧
    (data.Category ≠ "" →
      saveProcessedFile destDir fs srcPath data today false =
        .ok (FS.set fs
          (goJoin (goJoin destDir data.Category) (processedFileName data today srcPath)) c)) := by
  refine ⟨rfl, ?_, ?_⟩
  · intro h
    simp [saveProcessedFile, robustCopy, hsrc, processedPath, effectiveCategory, h]
  · intro h
    simp [saveProcessedFile, robustCopy, hsrc, processedPath, effectiveCategory, h]

/-- Witness for the amended C7 at a concrete record with empty category. -/
theorem C7_amended_category_default_witness :
    effectiveCategory ⟨"2024-01-05", "V", "", 3⟩ =
      (if ("" : String) = "" then "Unsorted" else "") ∧
    (("" : String) = "" →
      saveProcessedFile "d" [("/w/a.jpg", [7])] "/w/a.jpg" ⟨"2024-01-05", "V", "", 3⟩
          "2026-10-11" false =
        .ok (FS.set [("/w/a.jpg", [7])]
          (goJoin (goJoin "d" "Unsorted")
            (processedFileName ⟨"2024-01-05", "V", "", 3⟩ "2026-10-11" "/w/a.jpg")) [7])) ∧
    (("" : String) ≠ "" →
      saveProcessedFile "d" [("/w/a.jpg", [7])] "/w/a.jpg" ⟨"2024-01-05", "V", "", 3⟩
          "2026-10-11" false =
        .ok (FS.set [("/w/a.jpg", [7])]
          (goJoin (goJoin "d" "")
            (processedFileName ⟨"2024-01-05", "V", "", 3⟩ "2026-10-11" "/w/a.jpg")) [7])) :=
  C7_amended_category_default "d" [("/w/a.jpg", [7])] "/w/a.jpg" "2026-10-11"
    ⟨"2024-01-05", "V", "", 3⟩ [7] (by decide)

theorem commitAll_lookup_other (destDir srcPath today : String) :
    ∀ (l : List ReceiptData) (fs : FS) (injs : List Bool) (p : String),
      (∀ d ∈ l, processedPath destDir d today srcPath ≠ p) →
      FS.lookup (commitAll destDir fs srcPath l today injs).1 p = fs.lookup p := by
  intro l
  induction l with
  | nil => intro fs injs p _; rfl
  | cons d rest ih =>
    intro fs injs p hne
    simp only [commitAll, saveProcessedFile, robustCopy]
    cases hs : fs.lookup srcPath with
    | none =>
      exact ih fs injs.tail p (fun d' hd' => hne d' (List.mem_cons_of_mem d hd'))
    | some c =>
      cases hinj : injs.headD false with
      | true =>
        exact ih fs injs.tail p (fun d' hd' => hne d' (List.mem_cons_of_mem d hd'))
      | false =>
        simp only [Bool.false_eq_true, if_false]
        rw [ih (fs.set (processedPath destDir d today srcPath) c) injs.tail p
          (fun d' hd' => hne d' (List.mem_cons_of_mem d hd'))]
        exact FS.lookup_set_ne fs c (fun h => hne d (List.mem_cons_self d rest) h.symm)

theorem commitAll_zero_unchanged (destDir srcPath today : String) :
    ∀ (l : List ReceiptData) (fs : FS) (injs : List Bool),
      (commitAll destDir fs srcPath l today injs).2 = 0 →
      (commitAll destDir fs srcPath l today injs).1 = fs := by
  intro l
  induction l with
  | nil => intro fs injs _; rfl
  | cons d rest ih =>
    intro fs injs hz
    simp only [commitAll] at hz ⊢
    cases hs : saveProcessedFile destDir fs srcPath d today (injs.headD false) with
    | ok fs' => rw [hs] at hz; exact absurd hz (Nat.succ_ne_zero _)
    | error e => rw [hs] at hz; exact ih fs injs.tail hz

/-- Claim C1: `saveAndArchive` archives the original exactly when at least
one record's copy succeeded; with zero successes the filesystem is unchanged
(the source still at its original path, no `originals` entry), and with at
least one success the source is gone from its original path and an entry
with its original basename sits under `originals` (assuming the archive
rename itself proceeds normally and the destination tree does not alias the
source path). -/
theorem C1_archive_gate (destDir : String) (fs : FS) (srcPath today : String)
    (l : List ReceiptData) (injs : List Bool) (minj : Bool) (c : FileBytes)
    (hsrc : fs.lookup srcPath = some c)
    (hne : ∀ d ∈ l, processedPath destDir d today srcPath ≠ srcPath)
    (horig : originalsPath destDir srcPath ≠ srcPath)
    (hfresh : fs.lookup (originalsPath destDir srcPath) = none) :
    ((commitAll destDir fs srcPath l today injs).2 = 0 →
      saveAndArchive destDir fs srcPath l today injs .ok minj = fs ∧
      FS.lookup (saveAndArchive destDir fs srcPath l today injs .ok minj) srcPath = some c ∧
      FS.lookup (saveAndArchive destDir fs srcPath l today injs .ok minj)
        (originalsPath destDir srcPath) = none) ∧
    (0 < (commitAll destDir fs srcPath l today injs).2 →
      FS.lookup (saveAndArchive destDir fs srcPath l today injs .ok minj) srcPath = none ∧
      FS.lookup (saveAndArchive destDir fs srcPath l today injs .ok minj)
        (originalsPath destDir srcPath) = some c) := by
  constructor
  · intro hz
    have hfs : (commitAll destDir fs srcPath l today injs).1 = fs :=
      commitAll_zero_unchanged destDir srcPath today l fs injs hz
    have harch : saveAndArchive destDir fs srcPath l today injs .ok minj = fs := by
      simp only [saveAndArchive]
      rw [if_neg (by omega)]
      exact hfs
    refine ⟨harch, ?_, ?_⟩
    · rw [harch]; exact hsrc
    · rw [harch]; exact hfresh
  · intro hpos
    have hlook : FS.lookup (commitAll destDir fs srcPath l today injs).1 srcPath = some c := by
      rw [commitAll_lookup_other destDir srcPath today l fs injs srcPath hne]
      exact hsrc
    have harch : saveAndArchive destDir fs srcPath l today injs .ok minj =
        FS.set (FS.erase (commitAll destDir fs srcPath l today injs).1 srcPath)
          (originalsPath destDir srcPath) c := by
      simp only [saveAndArchive]
      rw [if_pos hpos]
      simp [archiveOriginalFile, robustMove, osRename, hlook]
    rw [harch]
    constructor
    · rw [FS.lookup_set_ne _ c (Ne.symm horig), FS.lookup_erase_self]
    · exact FS.lookup_set_self _ _ c

/-- Witness for C1: one record, committed successfully, at a concrete
filesystem; both the zero-success branch (vacuously) and the
one-success branch are exercised through the applied theorem. -/
theorem C1_archive_gate_witness :
    ((commitAll "d" [("/w/a.jpg", [7])] "/w/a.jpg" [⟨"2024-01-05", "V", "Tax", 3⟩]
        "2026-10-11" []).2 = 0 →
      saveAndArchive "d" [("/w/a.jpg", [7])] "/w/a.jpg" [⟨"2024-01-05", "V", "Tax", 3⟩]
        "2026-10-11" [] .ok false = [("/w/a.jpg", [7])] ∧
      FS.lookup (saveAndArchive "d" [("/w/a.jpg", [7])] "/w/a.jpg"
        [⟨"2024-01-05", "V", "Tax", 3⟩] "2026-10-11" [] .ok false) "/w/a.jpg" = some [7] ∧
      FS.lookup (saveAndArchive "d" [("/w/a.jpg", [7])] "/w/a.jpg"
        [⟨"2024-01-05", "V", "Tax", 3⟩] "2026-10-11" [] .ok false)
        (originalsPath "d" "/w/a.jpg") = none) ∧
    (0 < (commitAll "d" [("/w/a.jpg", [7])] "/w/a.jpg" [⟨"2024-01-05", "V", "Tax", 3⟩]
        "2026-10-11" []).2 →
      FS.lookup (saveAndArchive "d" [("/w/a.jpg", [7])] "/w/a.jpg"
        [⟨"2024-01-05", "V", "Tax", 3⟩] "2026-10-11" [] .ok false) "/w/a.jpg" = none ∧
      FS.lookup (saveAndArchive "d" [("/w/a.jpg", [7])] "/w/a.jpg"
        [⟨"2024-01-05", "V", "Tax", 3⟩] "2026-10-11" [] .ok false)
        (originalsPath "d" "/w/a.jpg") = some [7]) :=
  C1_archive_gate "d" [("/w/a.jpg", [7])] "/w/a.jpg" "2026-10-11"
    [⟨"2024-01-05", "V", "Tax", 3⟩] [] false [7] (by decide)
    (by decide) (by decide) (by decide)

/-- Claim C10: the raw text `null` is valid JSON that is neither a receipt
object nor an array, yet the first decode attempt succeeds, so the parser
returns exactly one all-zero record (empty date, empty vendor, empty
category, amount 0); committing it files a zero-amount copy under `Unsorted`
with the current date and archives the original. -/
theorem C10_null_zero_record :
    parseGeminiResponse "null" = some [zeroReceipt] ∧
    zeroReceipt = ⟨"", "", "", 0⟩ ∧
    processedPath "d" zeroReceipt "2026-10-11" "/w/a.jpg" =
      "d/Unsorted/2026-10-11__0円.jpg" ∧
    FS.lookup (saveAndArchive "d" [("/w/a.jpg", [7])] "/w/a.jpg" [zeroReceipt]
      "2026-10-11" [] .ok false) "d/Unsorted/2026-10-11__0円.jpg" = some [7] ∧
    FS.lookup (saveAndArchive "d" [("/w/a.jpg", [7])] "/w/a.jpg" [zeroReceipt]
      "2026-10-11" [] .ok false) (originalsPath "d" "/w/a.jpg") = some [7] ∧
    FS.lookup (saveAndArchive "d" [("/w/a.jpg", [7])] "/w/a.jpg" [zeroReceipt]
      "2026-10-11" [] .ok false) "/w/a.jpg" = none := by
  refine ⟨by decide, rfl, by decide, by decide, by decide, by decide⟩

theorem waitGo_stable_window (sizes : Nat → Option Int) :
    ∀ (fuel : Nat) (lastSize : Int) (stableSince t : Nat),
      stableSince ≤ t →
      (∀ u, stableSince ≤ u → u < t → sizes u = some lastSize) →
      waitGo sizes fuel lastSize stableSince t = .stable →
      ∃ tf, t ≤ tf ∧ tf ≤ 300 ∧ 10 ≤ tf ∧
        (∃ n, sizes tf = some n ∧ 0 < n) ∧
        ∀ u, tf - 10 ≤ u → u ≤ tf → sizes u = sizes tf := by
  intro fuel
  induction fuel with
  | zero =>
    intro lastSize ss t _ _ h
    exact absurd h (by simp [waitGo])
  | succ fuel ih =>
    intro lastSize ss t hss hwin h
    simp only [waitGo] at h
    by_cases ht : 300 < t
    · rw [if_pos ht] at h
      exact absurd h (by simp)
    · rw [if_neg ht] at h
      cases hst : sizes t with
      | none =>
        rw [hst] at h
        exact absurd h (by simp)
      | some sz =>
        rw [hst] at h
        dsimp only at h
        by_cases hne : sz ≠ lastSize
        · rw [if_pos hne] at h
          obtain ⟨tf, h1, h2⟩ := ih sz t (t + 1) (Nat.le_succ t)
            (fun u hu1 hu2 => by
              have hut : u = t := by omega
              rw [hut, hst]) h
          exact ⟨tf, by omega, h2⟩
        · rw [if_neg hne] at h
          push_neg at hne
          by_cases hcond : 10 ≤ t - ss ∧ 0 < sz
          · rw [if_pos hcond] at h
            refine ⟨t, Nat.le_refl t, by omega, by omega, ⟨sz, hst, hcond.2⟩, ?_⟩
            intro u hu1 hu2
            rw [hst]
            rcases Nat.eq_or_lt_of_le hu2 with he | hl
            · rw [he, hst]
            · rw [hwin u (by omega) hl, hne]
          · rw [if_neg hcond] at h
            obtain ⟨tf, h1, h2⟩ := ih lastSize ss (t + 1) (by omega)
              (fun u hu1 hu2 => by
                rcases Nat.lt_succ_iff_lt_or_eq.mp hu2 with hu | hu
                · exact hwin u hu1 hu
                · rw [hu, hst, hne]) h
            exact ⟨tf, by omega, h2⟩

theorem waitGo_zero_timeout (sizes : Nat → Option Int) (hz : ∀ t, sizes t = some 0) :
    ∀ (fuel : Nat) (lastSize : Int) (stableSince t : Nat),
      waitGo sizes fuel lastSize stableSince t = .timeout := by
  intro fuel
  induction fuel with
  | zero => intro lastSize ss t; rfl
  | succ fuel ih =>
    intro lastSize ss t
    simp only [waitGo]
    by_cases ht : 300 < t
    · rw [if_pos ht]
    · rw [if_neg ht, hz t]
      dsimp only
      by_cases hne : (0 : Int) ≠ lastSize
      · rw [if_pos hne]
        exact ih 0 t (t + 1)
      · rw [if_neg hne]
        rw [if_neg (by omega)]
        exact ih lastSize ss (t + 1)

theorem waitGo_gone_notFound (sizes : Nat → Option Int) (k : Nat) (hk : k ≤ 300)
    (hnone : sizes k = none) (hz : ∀ u, u < k → sizes u = some 0) :
    ∀ (fuel : Nat) (lastSize : Int) (stableSince t : Nat),
      t ≤ k → k < t + fuel →
      waitGo sizes fuel lastSize stableSince t = .notFound := by
  intro fuel
  induction fuel with
  | zero => intro lastSize ss t h1 h2; omega
  | succ fuel ih =>
    intro lastSize ss t h1 h2
    simp only [waitGo]
    rcases Nat.eq_or_lt_of_le h1 with he | hl
    · rw [if_neg (by omega), he, hnone]
    · rw [if_neg (by omega), hz t hl]
      dsimp only
      by_cases hne : (0 : Int) ≠ lastSize
      · rw [if_pos hne]
        exact ih 0 t (t + 1) (by omega) (by omega)
      · rw [if_neg hne]
        rw [if_neg (by omega)]
        exact ih lastSize ss (t + 1) (by omega) (by omega)

/-- Claim C3: `waitForStableFile` succeeds only when the size, sampled every
second, has been unchanged for a continuous 10 seconds with a positive
current size; a trace stuck at size zero times out (5 minutes = samples 0
through 300), and a file that disappears mid-wait yields the not-found
condition. -/
theorem C3_stability_detector (sizes : Nat → Option Int) :
    (waitForStableFile sizes = .stable →
      ∃ t, 10 ≤ t ∧ t ≤ 300 ∧ (∃ n, sizes t = some n ∧ 0 < n) ∧
        ∀ u, t - 10 ≤ u → u ≤ t → sizes u = sizes t) ∧
    ((∀ t, sizes t = some 0) → waitForStableFile sizes = .timeout) ∧
    (∀ k, k ≤ 300 → sizes k = none → (∀ u, u < k → sizes u = some 0) →
      waitForStableFile sizes = .notFound) := by
  refine ⟨?_, ?_, ?_⟩
  · intro h
    obtain ⟨tf, _, h2, h3, h4, h5⟩ :=
      waitGo_stable_window sizes 302 (-1) 0 0 (Nat.le_refl 0)
        (fun u hu1 hu2 => absurd hu2 (Nat.not_lt_zero u)) h
    exact ⟨tf, h3, h2, h4, h5⟩
  · intro hz
    exact waitGo_zero_timeout sizes hz 302 (-1) 0 0
  · intro k hk hnone hz
    exact waitGo_gone_notFound sizes k hk hnone hz 302 (-1) 0 0 (by omega) (by omega)

/-- Witness for C3: a constant positive trace reaches stability, the
all-zero trace times out, and a trace that is zero then disappears at second
3 reports not-found. -/
theorem C3_stability_detector_witness :
    (∃ t, 10 ≤ t ∧ t ≤ 300 ∧
      (∃ n, (fun (_ : Nat) => some (7 : Int)) t = some n ∧ 0 < n) ∧
      ∀ u, t - 10 ≤ u → u ≤ t →
        (fun (_ : Nat) => some (7 : Int)) u = (fun (_ : Nat) => some (7 : Int)) t) ∧
    waitForStableFile (fun _ => some 0) = .timeout ∧
    waitForStableFile (fun t => if t < 3 then some 0 else none) = .notFound :=
  ⟨(C3_stability_detector (fun _ => some 7)).1 (by decide),
    (C3_stability_detector (fun _ => some 0)).2.1 (fun _ => rfl),
    (C3_stability_detector (fun t => if t < 3 then some 0 else none)).2.2 3 (by omega)
      (by decide) (fun u hu => by simp [hu])⟩

theorem loopReachable_nodup {s : List String} (h : LoopReachable s) : s.Nodup := by
  induction h with
  | init => exact List.nodup_nil
  | step hr hstep ih =>
    rename_i s1 s2
    cases hstep with
    | event e =>
      simp only [handleEvent]
      by_cases hrel : relevantEvent e
      · rw [if_pos hrel]
        by_cases hm : e.name ∈ s1
        · rw [if_pos hm]
          exact ih
        · rw [if_neg hm]
          exact List.nodup_cons.mpr ⟨hm, ih⟩
      · rw [if_neg hrel]
        exact ih
    | exit p hp =>
      exact List.Nodup.erase p ih

/-- Claim C2: in every reachable state of the event-loop/task system a path
is registered in the in-flight set at most once; an event for a registered
path spawns no new task and leaves the state unchanged; the entry is removed
unconditionally when the task for that path terminates, after which a fresh
content-relevant event for the path spawns a new task. -/
theorem C2_inflight_at_most_once {s : List String} (hreach : LoopReachable s) (p : String) :
    s.count p ≤ 1 ∧
    (∀ e : FsEvent, e.name = p → p ∈ s →
      (handleEvent s e).2 = false ∧ (handleEvent s e).1 = s) ∧
    p ∉ taskExit s p ∧
    (∀ e : FsEvent, e.name = p → relevantEvent e = true →
      (handleEvent (taskExit s p) e).2 = true ∧
      (handleEvent (taskExit s p) e).1 = p :: taskExit s p) := by
  have hnd : s.Nodup := loopReachable_nodup hreach
  have hout : p ∉ taskExit s p := by
    have hc : (s.erase p).count p = s.count p - 1 := List.count_erase_self p s
    have hle : s.count p ≤ 1 := List.nodup_iff_count_le_one.mp hnd p
    have hz : (s.erase p).count p = 0 := by omega
    exact (List.count_eq_zero).mp hz
  refine ⟨List.nodup_iff_count_le_one.mp hnd p, ?_, hout, ?_⟩
  · intro e hep hmem
    simp only [handleEvent]
    by_cases hrel : relevantEvent e
    · rw [if_pos hrel, if_pos (hep ▸ hmem)]
      exact ⟨rfl, rfl⟩
    · rw [if_neg hrel]
      exact ⟨rfl, rfl⟩
  · intro e hep hrel
    simp only [handleEvent]
    rw [if_pos hrel, if_neg (hep ▸ hout), hep]
    exact ⟨rfl, rfl⟩

/-- Witness for C2 at the reachable state obtained by dispatching a write
event for path "a" from the initial state. -/
theorem C2_inflight_at_most_once_witness :
    (["a"] : List String).count "a" ≤ 1 ∧
    (∀ e : FsEvent, e.name = "a" → "a" ∈ (["a"] : List String) →
      (handleEvent ["a"] e).2 = false ∧ (handleEvent ["a"] e).1 = ["a"]) ∧
    "a" ∉ taskExit ["a"] "a" ∧
    (∀ e : FsEvent, e.name = "a" → relevantEvent e = true →
      (handleEvent (taskExit ["a"] "a") e).2 = true ∧
      (handleEvent (taskExit ["a"] "a") e).1 = "a" :: taskExit ["a"] "a") :=
  C2_inflight_at_most_once
    (LoopReachable.step LoopReachable.init (LoopStep.event [] ⟨"a", 2⟩)) "a"

/-- Claim C8: the event loop registers the path and spawns a task exactly
for content-relevant events (kind including create, write, rename or chmod)
whose path is not already in flight; a relevant event whose registration
finds the path in flight is ignored, and an event of any other kind spawns
no task and changes nothing. -/
theorem C8_event_classification (s : List String) (e : FsEvent) :
    (relevantEvent e =
      (e.hasOp fsnotifyCreate || e.hasOp fsnotifyWrite ||
        e.hasOp fsnotifyRename || e.hasOp fsnotifyChmod)) ∧
    (relevantEvent e = false → handleEvent s e = (s, false)) ∧
    (relevantEvent e = true → e.name ∈ s → handleEvent s e = (s, false)) ∧
    (relevantEvent e = true → e.name ∉ s → handleEvent s e = (e.name :: s, true)) := by
  refine ⟨?_, ?_, ?_, ?_⟩
  · simp only [relevantEvent]
    cases h1 : e.hasOp fsnotifyWrite <;> cases h2 : e.hasOp fsnotifyCreate <;> rfl
  · intro h
    simp [handleEvent, h]
  · intro h hm
    simp [handleEvent, h, hm]
  · intro h hm
    simp [handleEvent, h, hm]

/-- Witness for C8: a chmod-only event for a fresh path spawns a task, and
the conjuncts' hypotheses are discharged at that input. -/
theorem C8_event_classification_witness :
    (relevantEvent ⟨"a", 16⟩ =
      (FsEvent.hasOp ⟨"a", 16⟩ fsnotifyCreate || FsEvent.hasOp ⟨"a", 16⟩ fsnotifyWrite ||
        FsEvent.hasOp ⟨"a", 16⟩ fsnotifyRename || FsEvent.hasOp ⟨"a", 16⟩ fsnotifyChmod)) ∧
    (relevantEvent ⟨"a", 16⟩ = false → handleEvent [] ⟨"a", 16⟩ = ([], false)) ∧
    (relevantEvent ⟨"a", 16⟩ = true → "a" ∈ ([] : List String) →
      handleEvent [] ⟨"a", 16⟩ = ([], false)) ∧
    (relevantEvent ⟨"a", 16⟩ = true → "a" ∉ ([] : List String) →
      handleEvent [] ⟨"a", 16⟩ = (["a"], true)) :=
  C8_event_classification [] ⟨"a", 16⟩

/-- Claim C9: once the upload has succeeded the deferred remote delete runs
on every exit path of `analyzeReceipt`; when polling resolves the asset in
any state other than active the run fails with the upstream-processing
failure naming that state; and when the response has no candidates or no
content parts the run fails with the empty-response condition. -/
theorem C9_analyze_cleanup (env : GenEnv) (fuel : Nat) :
    (env.openOk = true → env.uploadOk = true →
      (analyzeReceipt env fuel).1 ≠ .hung → (analyzeReceipt env fuel).2 = true) ∧
    (∀ st, env.openOk = true → env.uploadOk = true →
      pollState fuel 0 env.initState env.getFile = .done st → st ≠ .active →
      (analyzeReceipt env fuel).1 = .err (.stateErr st)) ∧
    (env.openOk = true → env.uploadOk = true →
      pollState fuel 0 env.initState env.getFile = .done .active →
      env.generateOk = true →
      (env.candidates = [] ∨ ∃ rest, env.candidates = [] :: rest) →
      (analyzeReceipt env fuel).1 = .err .emptyResp) := by
  refine ⟨?_, ?_, ?_⟩
  · intro ho hu hres
    simp only [analyzeReceipt, ho, hu] at hres ⊢
    cases hp : pollState fuel 0 env.initState env.getFile with
    | hung => rw [hp] at hres; exact absurd rfl hres
    | getErr => rfl
    | done st =>
      cases st with
      | active =>
        cases hg : env.generateOk with
        | false => rfl
        | true =>
          dsimp only
          cases hc : env.candidates with
          | nil => rfl
          | cons parts tail =>
            dsimp only
            cases parts with
            | nil => rfl
            | cons p ps =>
              dsimp only
              cases p with
              | none =>
                dsimp only
                cases parseGeminiResponse "" <;> rfl
              | some t =>
                dsimp only
                cases parseGeminiResponse t <;> rfl
      | unspecified => rfl
      | processing => rfl
      | failed => rfl
  · intro st ho hu hp hst
    simp only [analyzeReceipt, ho, hu, hp]
  · intro ho hu hp hg hc
    simp only [analyzeReceipt, ho, hu, hp, hg]
    rcases hc with hc | ⟨rest, hc⟩ <;> rw [hc]

/-- Witness for C9: one environment whose asset resolves in the failed
state, and one that resolves active but answers with no candidates. -/
theorem C9_analyze_cleanup_witness :
    (analyzeReceipt ⟨true, true, .failed, fun _ => none, true, []⟩ 1).1 =
      .err (.stateErr .failed) ∧
    (analyzeReceipt ⟨true, true, .failed, fun _ => none, true, []⟩ 1).2 = true ∧
    (analyzeReceipt ⟨true, true, .active, fun _ => none, true, []⟩ 1).1 = .err .emptyResp :=
  ⟨(C9_analyze_cleanup ⟨true, true, .failed, fun _ => none, true, []⟩ 1).2.1 .failed rfl rfl
      (by decide) (by decide),
    (C9_analyze_cleanup ⟨true, true, .failed, fun _ => none, true, []⟩ 1).1 rfl rfl (by decide),
    (C9_analyze_cleanup ⟨true, true, .active, fun _ => none, true, []⟩ 1).2.2 rfl rfl
      (by decide) rfl (Or.inl rfl)⟩

/-- Claim C5: `parseGeminiResponse` first attempts the single-object decode
(one-element sequence on success), then the array decode, and reports a
parse error only when both fail; the single-object example yields exactly
one record, a two-object array yields exactly two, and a non-JSON text
yields the parse-error condition. -/
theorem C5_response_parse_chain :
    (∀ s r, goUnmarshalObj s = some r → parseGeminiResponse s = some [r]) ∧
    (∀ s l, goUnmarshalObj s = none → goUnmarshalArr s = some l →
      parseGeminiResponse s = some l) ∧
    (∀ s, goUnmarshalObj s = none → goUnmarshalArr s = none →
      parseGeminiResponse s = none) ∧
    parseGeminiResponse
        "\x7b\"date\":\"2024-01-05\",\"vendor\":\"ACME\",\"category\":\"Grocery\",\"total_amount\":1200\x7d" =
      some [⟨"2024-01-05", "ACME", "Grocery", 1200⟩] ∧
    parseGeminiResponse
        "[\x7b\"date\":\"2024-01-05\",\"vendor\":\"A\",\"category\":\"Tax\",\"total_amount\":1\x7d,\x7b\"date\":\"2024-01-06\",\"vendor\":\"B\",\"category\":\"Other\",\"total_amount\":2\x7d]" =
      some [⟨"2024-01-05", "A", "Tax", 1⟩, ⟨"2024-01-06", "B", "Other", 2⟩] ∧
    parseGeminiResponse "not json" = none := by
  refine ⟨?_, ?_, ?_, by decide, by decide, by decide⟩
  · intro s r h
    simp only [parseGeminiResponse, h]
  · intro s l h1 h2
    simp only [parseGeminiResponse, h1, h2]
  · intro s h1 h2
    simp only [parseGeminiResponse, h1, h2]

/-- Witness for C5: the three contract conjuncts applied at concrete texts
(an empty object, an empty array, and a stray word). -/
theorem C5_response_parse_chain_witness :
    parseGeminiResponse "\x7b\x7d" = some [zeroReceipt] ∧
    parseGeminiResponse "[]" = some [] ∧
    parseGeminiResponse "x" = none :=
  ⟨C5_response_parse_chain.1 "\x7b\x7d" zeroReceipt (by decide),
    C5_response_parse_chain.2.1 "[]" [] (by decide) (by decide),
    C5_response_parse_chain.2.2.1 "x" (by decide) (by decide)⟩
